import Mathlib

/-!
Verification of the tenant-scoped inventory record store (src/q.py).

A record is a Python dict mapping field names (strings) to string values;
we embed it as an ordered association list, with `rowGet` / `rowGetD` /
`rowSet` mirroring `dict.get` and dict assignment (overwrite the first
occurrence in place, else append, preserving insertion order).
-/

set_option autoImplicit false

namespace Inventory

/-- A record: an ordered mapping from field name to string value (a Python dict
whose values are strings). -/
abbrev Record := List (String × String)

/-- `LAST_UPDATED_FIELD` constant, src/q.py line 11. -/
def LAST_UPDATED_FIELD : String := "Last Updated"

/-- `TENANT_FIELD` constant, src/q.py line 12. -/
def TENANT_FIELD : String := "Tenant"

/-- `PROJECT_FIELD` constant, src/q.py line 13. -/
def PROJECT_FIELD : String := "Project"

/-- `ADMIN` constant, src/q.py line 14. -/
def ADMIN : String := "administrator"

/-- `row.get(key)`: value of the first occurrence of `key`, `none` if absent. -/
def rowGet (row : Record) (key : String) : Option String :=
  match row with
  | [] => none
  | (k, v) :: rest => if k = key then some v else rowGet rest key

/-- `row.get(key, dflt)`. -/
def rowGetD (row : Record) (key dflt : String) : String :=
  (rowGet row key).getD dflt

/-- `row[key] = v` (dict assignment): overwrite the first occurrence of `key`
in place, keeping its position; append `(key, v)` if `key` is absent. -/
def rowSet (row : Record) (key v : String) : Record :=
  match row with
  | [] => [(key, v)]
  | (k, w) :: rest => if k = key then (k, v) :: rest else (k, w) :: rowSet rest key v

/-! ### String helpers mirroring the Python builtins used by src/q.py -/

/-- Is `needle` a leading segment of `hay` (over character lists)? -/
def leadsCL : List Char → List Char → Bool
  | [], _ => true
  | _ :: _, [] => false
  | c :: cs, d :: ds => c = d && leadsCL cs ds

/-- Does `needle` occur contiguously inside `hay` (over character lists)? -/
def occursCL (needle : List Char) : List Char → Bool
  | [] => leadsCL needle []
  | d :: ds => leadsCL needle (d :: ds) || occursCL needle ds

/-- Python's substring test `needle in hay`. -/
def pyIn (needle hay : String) : Bool :=
  occursCL needle.data hay.data

/-- ASCII lower-casing of one character (`str.lower` restricted to ASCII data,
as exercised by the record fields of this application). -/
def charToLower (c : Char) : Char :=
  if 'A' ≤ c ∧ c ≤ 'Z' then Char.ofNat (c.toNat + 32) else c

/-- Python `s.lower()`. -/
def toLowerStr (s : String) : String :=
  ⟨s.data.map charToLower⟩

/-- Python's notion of whitespace stripped by `str.strip()`. -/
def isSpaceChar (c : Char) : Bool :=
  c = ' ' || c = '\t' || c = '\n' || c = '\r' || c = '\x0b' || c = '\x0c'

/-- Python `s.strip()`. -/
def pyStrip (s : String) : String :=
  ⟨(((s.data.dropWhile isSpaceChar).reverse.dropWhile isSpaceChar).reverse)⟩

/-- Lexicographic `≤` on character lists (Python string comparison). -/
def lexLeCL : List Char → List Char → Bool
  | [], _ => true
  | _ :: _, [] => false
  | c :: cs, d :: ds => if c = d then lexLeCL cs ds else decide (c < d)

/-- Python `a <= b` on strings; on `"%Y-%m-%d %H:%M:%S"` timestamps this is
the chronological order. -/
def strLe (a b : String) : Bool :=
  lexLeCL a.data b.data

/-! ### Access scope filter -/

/-- `get_filtered_data`, src/q.py lines 54-58, with the loaded collection and
the session principal passed explicitly. -/
def get_filtered_data (all_data : List Record) (current_user : String) : List Record :=
  if current_user = ADMIN then all_data
  else all_data.filter (fun row => rowGet row TENANT_FIELD == some current_user)

/-- Spec-side scope (from the spec's words, for refinement against
`get_filtered_data`): administrator sees everything; any other principal sees
exactly the records whose `Tenant` field equals it, in order. A record's field
reads as the empty string when absent (spec section 3). -/
def specScope (all : List Record) (p : String) : List Record :=
  if p = ADMIN then all
  else all.filter (fun row => rowGetD row TENANT_FIELD "" == p)

/-! ### Authorization and content identity of rows -/

/-- The displayed field-value tuple of a row: `[row.get(col, "") for col in
self.columns]`, src/q.py lines 226 and 248. -/
def rowTuple (row : Record) (cols : List String) : List String :=
  cols.map (fun c => rowGetD row c "")

/-- `current_user == ADMIN or row.get(TENANT_FIELD) == current_user`,
src/q.py lines 227 and 249. -/
def authorized (user : String) (row : Record) : Bool :=
  user == ADMIN || rowGet row TENANT_FIELD == some user

/-! ### Edit-session commit (entry_window.save, src/q.py lines 218-235) -/

/-- Stamping performed by `entry_window.save` before the merge, src/q.py
lines 218-223: overwrite `Last Updated` with the current time, and for a
non-administrator principal force `Tenant` to the principal. `entered` is the
record collected from the entry widgets, `now` the `datetime.now()` render. -/
def commitEntry (entered : Record) (user now : String) : Record :=
  let stamped := rowSet entered LAST_UPDATED_FIELD now
  if user ≠ ADMIN then rowSet stamped TENANT_FIELD user else stamped

/-- The merge loop of `entry_window.save`, src/q.py lines 225-231, for the
Editing case (an `existing_entry` tuple is present): walk the collection; at
the first row whose displayed tuple equals the target, replace it when the
principal is authorized, keep it otherwise, and stop either way (the `break`);
if no row matches, the Python `for`/`else` appends the new record at the end. -/
def mergeLoop (cols target : List String) (entry_data : Record) (user : String) :
    List Record → List Record
  | [] => [entry_data]
  | row :: rest =>
    if rowTuple row cols == target then
      (if authorized user row then entry_data else row) :: rest
    else row :: mergeLoop cols target entry_data user rest

/-- `entry_window.save`'s collection update, src/q.py lines 225-231: the
Creating case (`existing_entry` is `None`) never matches and appends; the
Editing case runs the merge loop. -/
def mergeEntry (full_data : List Record) (cols : List String)
    (existing_entry : Option (List String)) (entry_data : Record)
    (user : String) : List Record :=
  match existing_entry with
  | none => full_data ++ [entry_data]
  | some target => mergeLoop cols target entry_data user full_data

/-! ### Delete (delete_entry, src/q.py lines 239-255) -/

/-- The filtering loop of `delete_entry`, src/q.py lines 246-251: a row is
dropped exactly when its displayed tuple is among the selected tuples and the
principal is authorized for it; every other row is kept in order. -/
def deleteLoop (cols : List String) (values_to_delete : List (List String))
    (user : String) : List Record → List Record
  | [] => []
  | row :: rest =>
    if values_to_delete.contains (rowTuple row cols) && authorized user row then
      deleteLoop cols values_to_delete user rest
    else row :: deleteLoop cols values_to_delete user rest

/-- Spec-side retention predicate for delete (from the spec's words): a row is
retained unless it is a selected target for which the principal is
authorized. -/
def specRetains (cols : List String) (values_to_delete : List (List String))
    (user : String) (row : Record) : Bool :=
  !(values_to_delete.contains (rowTuple row cols) && authorized user row)

/-! ### The persisted JSON document

Modelled from the spec: the `json.dump(data, f, indent=2)` / `json.load(f)`
codec invoked by `save_data` and `load_data` (src/q.py lines 41-51) is Python
library code not present under src/. The spec describes the persisted file as
"a single serialized sequence-of-mappings document" (section 6). `escChar` /
`encode` mirror `json.dumps` with `indent=2` on string-valued records;
`parseRecords` mirrors `json.load` restricted to such documents, building each
mapping by keyed assignment in document order as a Python dict does. -/

/-- JSON string escaping of one character (quote, backslash and the control
characters that occur in this application's string data). -/
def escChar (c : Char) : List Char :=
  if c = '"' then ['\\', '"']
  else if c = '\\' then ['\\', '\\']
  else if c = '\n' then ['\\', 'n']
  else if c = '\t' then ['\\', 't']
  else if c = '\r' then ['\\', 'r']
  else [c]

/-- JSON string escaping of a character list. -/
def escList : List Char → List Char
  | [] => []
  | c :: cs => escChar c ++ escList cs

/-- A JSON string literal: `"` + escaped body + `"`. -/
def encStr (s : String) : List Char :=
  '"' :: (escList s.data ++ ['"'])

/-- One `"key": "value"` line of a record at indent 4. -/
def encField (kv : String × String) : List Char :=
  [' ', ' ', ' ', ' '] ++ encStr kv.1 ++ [':', ' '] ++ encStr kv.2

/-- The `,`-and-newline separated field lines of a non-empty record. -/
def encFields : List (String × String) → List Char
  | [] => []
  | [kv] => encField kv
  | kv :: rest => encField kv ++ [',', '\n'] ++ encFields rest

/-- One record object at indent 2, as `json.dumps` with `indent=2` renders a
dict inside a list. -/
def encRecord (r : Record) : List Char :=
  match r with
  | [] => [' ', ' ', '\x7b', '\x7d']
  | _ => [' ', ' ', '\x7b', '\n'] ++ encFields r ++ ['\n', ' ', ' ', '\x7d']

/-- The `,`-and-newline separated record objects of a non-empty collection. -/
def encItems : List Record → List Char
  | [] => []
  | [r] => encRecord r
  | r :: rest => encRecord r ++ [',', '\n'] ++ encItems rest

/-- The whole persisted document, as `json.dump(data, f, indent=2)` writes
it, src/q.py line 50. -/
def encode (rs : List Record) : List Char :=
  match rs with
  | [] => ['[', ']']
  | _ => ['[', '\n'] ++ (encItems rs ++ ['\n', ']'])

/-- Inverse of `escChar` after a backslash. -/
def unescChar (c : Char) : Char :=
  if c = 'n' then '\n'
  else if c = 't' then '\t'
  else if c = 'r' then '\r'
  else c

/-- Scan a JSON string body up to the closing unescaped quote, unescaping as
Python's decoder does; returns the decoded characters and the rest. -/
def parseStrAux (acc : List Char) : List Char → Option (List Char × List Char)
  | [] => none
  | '"' :: rest => some (acc.reverse, rest)
  | '\\' :: [] => none
  | '\\' :: d :: rest2 => parseStrAux (unescChar d :: acc) rest2
  | c :: rest => parseStrAux (c :: acc) rest

/-- Parse a JSON string literal. -/
def parseStr (cs : List Char) : Option (List Char × List Char) :=
  match cs with
  | '"' :: rest => parseStrAux [] rest
  | _ => none

/-- Consume an exact expected character sequence. -/
def expectCL : List Char → List Char → Option (List Char)
  | [], cs => some cs
  | _ :: _, [] => none
  | p :: ps, c :: cs => if p = c then expectCL ps cs else none

/-- Parse one `"key": "value"` line at indent 4. -/
def parseField (cs : List Char) : Option ((String × String) × List Char) :=
  match expectCL [' ', ' ', ' ', ' '] cs with
  | none => none
  | some cs1 =>
    match parseStr cs1 with
    | none => none
    | some (k, cs2) =>
      match expectCL [':', ' '] cs2 with
      | none => none
      | some cs3 =>
        match parseStr cs3 with
        | none => none
        | some (v, cs4) => some ((⟨k⟩, ⟨v⟩), cs4)

/-- Parse the field lines of a non-empty record object, accumulating them by
keyed assignment (`rowSet`) in document order, as Python's decoder builds a
dict; stops at the closing `\x7d` at indent 2. `fuel` bounds the number of
fields and is in practice the document length. -/
def parseFieldsAux (fuel : Nat) (acc : Record) (cs : List Char) :
    Option (Record × List Char) :=
  match fuel with
  | 0 => none
  | fuel + 1 =>
    match parseField cs with
    | none => none
    | some (kv, rest) =>
      match rest with
      | ',' :: '\n' :: rest2 => parseFieldsAux fuel (rowSet acc kv.1 kv.2) rest2
      | '\n' :: ' ' :: ' ' :: '\x7d' :: rest2 => some (rowSet acc kv.1 kv.2, rest2)
      | _ => none

/-- Parse one record object at indent 2. -/
def parseRecord (fuel : Nat) (cs : List Char) : Option (Record × List Char) :=
  match cs with
  | ' ' :: ' ' :: '\x7b' :: rest =>
    match rest with
    | '\x7d' :: rest2 => some ([], rest2)
    | '\n' :: rest2 => parseFieldsAux fuel [] rest2
    | _ => none
  | _ => none

/-- Parse the record objects of a non-empty collection up to the closing
`]`. -/
def parseItemsAux (fuel : Nat) (cs : List Char) : Option (List Record) :=
  match fuel with
  | 0 => none
  | fuel + 1 =>
    match parseRecord fuel cs with
    | none => none
    | some (r, rest) =>
      match rest with
      | ',' :: '\n' :: rest2 =>
        match parseItemsAux fuel rest2 with
        | none => none
        | some rs => some (r :: rs)
      | ['\n', ']'] => some [r]
      | _ => none

/-- Parse a whole persisted document (the shape `json.load` accepts back from
`save_data`'s writes). -/
def parseRecords (cs : List Char) : Option (List Record) :=
  match cs with
  | ['[', ']'] => some []
  | '[' :: '\n' :: rest => parseItemsAux cs.length rest
  | _ => none

/-- Compact `json.dumps(row)` (separators `", "` and `": "`), used by
`refresh_table` to render a row for the free-text search, src/q.py
line 177. -/
def dumpFieldsCompact : List (String × String) → List Char
  | [] => []
  | [kv] => encStr kv.1 ++ [':', ' '] ++ encStr kv.2
  | kv :: rest => encStr kv.1 ++ [':', ' '] ++ encStr kv.2 ++ [',', ' '] ++ dumpFieldsCompact rest

/-- `json.dumps(row)` for one row, src/q.py line 177. -/
def dumps_row (row : Record) : String :=
  ⟨'\x7b' :: (dumpFieldsCompact row ++ ['\x7d'])⟩

/-! ### Search/filter predicate (refresh_table, src/q.py lines 169-184) -/

/-- `tenant_match` of `refresh_table`, src/q.py line 178. `tenant_query` is
already stripped and lower-cased by the caller. -/
def tenant_match (user tenant_query : String) (row : Record) : Bool :=
  (user == ADMIN &&
    (tenant_query == "" || toLowerStr (rowGetD row TENANT_FIELD "") == tenant_query))
  || (rowGet row TENANT_FIELD == some user)

/-- The per-row display predicate of `refresh_table`, src/q.py lines 177-180:
free-text substring over the lower-cased JSON render, tenant visibility, and
project substring must all hold. `query`, `tenant_query`, `project_query` are
the already-preprocessed control values. -/
def rowPasses (user query tenant_query project_query : String) (row : Record) : Bool :=
  pyIn query (toLowerStr (dumps_row row))
  && tenant_match user tenant_query row
  && pyIn project_query (toLowerStr (rowGetD row PROJECT_FIELD ""))

/-- `refresh_table`'s displayed subset, src/q.py lines 169-181: preprocess the
three controls exactly as the source does (`lower()` on the search box,
`strip().lower()` on the tenant and project boxes), then keep the rows passing
all three tests, in order. -/
def refreshFiltered (full_data : List Record) (user search tenantF projectF : String) :
    List Record :=
  full_data.filter
    (rowPasses user (toLowerStr search) (toLowerStr (pyStrip tenantF))
      (toLowerStr (pyStrip projectF)))

/-! ### Initial import (initialize_from_excel, src/q.py lines 28-38) -/

/-- The per-row stamping of `initialize_from_excel`, src/q.py lines 33-35:
`Last Updated` is assigned unconditionally; `Tenant` is assigned
`row.get(TENANT_FIELD, default)` where the default is the principal for a
non-administrator and `""` for the administrator. -/
def initRow (user now : String) (row : Record) : Record :=
  let r1 := rowSet row LAST_UPDATED_FIELD now
  rowSet r1 TENANT_FIELD (rowGetD r1 TENANT_FIELD (if user ≠ ADMIN then user else ""))

/-- All imported rows of `initialize_from_excel`, src/q.py lines 32-37. -/
def initRows (user now : String) (data : List Record) : List Record :=
  data.map (initRow user now)

/-! ### Persistence state (save_data / load_data, src/q.py lines 41-51) -/

/-- `save_data`'s file contents: the serialized whole collection,
src/q.py lines 48-50. -/
def save_data (data : List Record) : String :=
  ⟨encode data⟩

/-- `load_data`, src/q.py lines 41-45, on an existing file: parse the
persisted document back. The missing-file branch defers to
`initialize_from_excel` (modelled separately by `initRows`) and is not part of
the round-trip. -/
def load_data (file : Option String) : Option (List Record) :=
  match file with
  | some contents => parseRecords contents.data
  | none => none

/-- Observable effects of one `save_data` call, src/q.py lines 48-51: the
persisted file is rewritten with the serialized collection, then a snapshot
tagged `"Data updated by " + current_user` is attempted (`git_commit`,
src/q.py lines 22-25; a failed or unavailable snapshot is swallowed). -/
structure StoreState where
  file : Option String
  snapshotMsgs : List String
  deriving DecidableEq

/-- State transition of `save_data`, src/q.py lines 48-51. -/
def save_data_effect (data : List Record) (user : String) (st : StoreState) : StoreState :=
  ⟨some (save_data data), st.snapshotMsgs ++ ["Data updated by " ++ user]⟩

/-- The whole of `entry_window.save`, src/q.py lines 218-235: stamp the
entered fields, merge into the collection, then persist via `save_data`
unconditionally. Returns the new in-memory collection and the store state. -/
def commitSave (full_data : List Record) (cols : List String)
    (existing_entry : Option (List String)) (entered : Record)
    (user now : String) (st : StoreState) : List Record × StoreState :=
  let entry := commitEntry entered user now
  let newData := mergeEntry full_data cols existing_entry entry user
  (newData, save_data_effect newData user st)

/-! ### Export adapter (export_data, src/q.py lines 67-105) -/

/-- Kind of a message box shown by `export_data`. -/
inductive MsgKind where
  | info
  | error
  deriving DecidableEq

/-- Observable outcome of one `export_data` call: the message boxes shown, in
order, whether a file write was ever attempted, and the path of a
successfully written file. -/
structure ExportOutcome where
  msgs : List (MsgKind × String)
  writeAttempted : Bool
  written : Option String
  deriving DecidableEq

/-- `export_data`, src/q.py lines 67-105, with the dialog answers passed
explicitly: `export_type` is the format prompt's answer (`none` for a
cancelled dialog), `file_path` the save dialog's answer, `encOk` whether the
external encoder succeeded and `err` its message when it did not. -/
def export_data (data : List Record) (export_type : Option String)
    (file_path : Option String) (encOk : Bool) (err : String) : ExportOutcome :=
  if data = [] then ⟨[(MsgKind.info, "No data to export.")], false, none⟩
  else
    match export_type with
    | none => ⟨[], false, none⟩
    | some t =>
      if t = "" then ⟨[], false, none⟩
      else
        let ext := toLowerStr t
        if ¬ (ext ∈ ["json", "html", "txt", "xlsx"]) then
          ⟨[(MsgKind.error, "Unsupported format: " ++ ext)], false, none⟩
        else
          match file_path with
          | none => ⟨[], false, none⟩
          | some p =>
            if encOk then ⟨[(MsgKind.info, "Data exported to " ++ p)], true, some p⟩
            else ⟨[(MsgKind.error, err)], true, none⟩

/-- Accumulate key-value pairs into a dict by assignment in order (how
Python's JSON decoder materialises an object). -/
def dictFold (acc : Record) : List (String × String) → Record
  | [] => acc
  | kv :: rest => dictFold (rowSet acc kv.1 kv.2) rest

/-- Parser fuel sufficient for a collection: one unit per record plus one per
field. -/
def fuelFor : List Record → Nat
  | [] => 0
  | r :: rest => r.length + 1 + fuelFor rest

/-!
## Theorems

Helper lemmas first, then one theorem per claim (with its witness or
counterexample).
-/

theorem rowGet_rowSet_self (row : Record) (key v : String) :
    rowGet (rowSet row key v) key = some v := by
  induction row with
  | nil => simp [rowSet, rowGet]
  | cons kv rest ih =>
    obtain ⟨k, w⟩ := kv
    by_cases h : k = key
    · simp [rowSet, rowGet, h]
    · simp [rowSet, rowGet, h, ih]

theorem rowGet_rowSet_ne (row : Record) (key v other : String) (h : other ≠ key) :
    rowGet (rowSet row key v) other = rowGet row other := by
  have h' : key ≠ other := Ne.symm h
  induction row with
  | nil => simp [rowSet, rowGet, h']
  | cons kv rest ih =>
    obtain ⟨k, w⟩ := kv
    by_cases hk : k = key
    · subst hk
      simp [rowSet, rowGet, h']
    · simp [rowSet, rowGet, hk, ih]

/-- If `key` is absent, dict assignment appends the pair at the end. -/
theorem rowSet_fresh (row : Record) (key v : String) (h : rowGet row key = none) :
    rowSet row key v = row ++ [(key, v)] := by
  induction row with
  | nil => simp [rowSet]
  | cons kv rest ih =>
    obtain ⟨k, w⟩ := kv
    by_cases hk : k = key
    · simp [rowGet, hk] at h
    · simp [rowGet, hk] at h
      simp [rowSet, hk, ih h]

/-- A key absent from a record's field names reads as `none`. -/
theorem rowGet_eq_none_of_not_mem (row : Record) (key : String)
    (h : key ∉ row.map Prod.fst) : rowGet row key = none := by
  induction row with
  | nil => rfl
  | cons kv rest ih =>
    obtain ⟨k, w⟩ := kv
    simp only [List.map_cons, List.mem_cons, not_or] at h
    have hk : k ≠ key := Ne.symm h.1
    have hrest : key ∉ rest.map Prod.fst := h.2
    simp [rowGet, hk, ih hrest]

theorem strLe_refl (a : String) : strLe a a = true := by
  obtain ⟨data⟩ := a
  simp only [strLe]
  induction data with
  | nil => rfl
  | cons c cs ih => simp [lexLeCL, ih]

/-! ### Codec round-trip lemmas -/

/-- Consuming one escaped character is pushing the character itself. -/
theorem parseStrAux_escChar (c : Char) (acc xs : List Char) :
    parseStrAux acc (escChar c ++ xs) = parseStrAux (c :: acc) xs := by
  by_cases h1 : c = '"'
  · subst h1; simp [escChar, parseStrAux, unescChar]
  · by_cases h2 : c = '\\'
    · subst h2; simp [escChar, parseStrAux, unescChar]
    · by_cases h3 : c = '\n'
      · subst h3; simp [escChar, parseStrAux, unescChar]
      · by_cases h4 : c = '\t'
        · subst h4; simp [escChar, parseStrAux, unescChar]
        · by_cases h5 : c = '\r'
          · subst h5; simp [escChar, parseStrAux, unescChar]
          · simp [escChar, h1, h2, h3, h4, h5, parseStrAux]

/-- Scanning an escaped body up to its closing quote recovers the body. -/
theorem parseStrAux_escList (s : List Char) : ∀ acc rest : List Char,
    parseStrAux acc (escList s ++ ('"' :: rest)) = some (acc.reverse ++ s, rest) := by
  induction s with
  | nil => intro acc rest; simp [escList, parseStrAux]
  | cons c cs ih =>
    intro acc rest
    simp only [escList, List.append_assoc]
    rw [parseStrAux_escChar, ih]
    simp

/-- Parsing an encoded string literal recovers the string. -/
theorem parseStr_encStr (s : String) (rest : List Char) :
    parseStr (encStr s ++ rest) = some (s.data, rest) := by
  simp only [encStr, List.cons_append, List.append_assoc, List.singleton_append]
  rw [parseStr]
  simpa using parseStrAux_escList s.data [] rest

theorem strMk_data (s : String) : (⟨s.data⟩ : String) = s := rfl

/-- Parsing an encoded field line recovers the pair. -/
theorem parseField_encField (kv : String × String) (rest : List Char) :
    parseField (encField kv ++ rest) = some (kv, rest) := by
  obtain ⟨k, v⟩ := kv
  simp only [encField, List.cons_append, List.nil_append, List.append_assoc,
    List.singleton_append]
  simp [parseField, expectCL, parseStr_encStr, strMk_data]

/-- Parsing the encoded field lines of a non-empty record accumulates exactly
its pairs in order. -/
theorem parseFieldsAux_encFields (r : List (String × String)) :
    ∀ fuel : Nat, ∀ acc : Record, ∀ rest : List Char, r ≠ [] → r.length ≤ fuel →
      parseFieldsAux fuel acc (encFields r ++ ('\n' :: ' ' :: ' ' :: '\x7d' :: rest))
        = some (dictFold acc r, rest) := by
  induction r with
  | nil => intro _ _ _ h _; cases h rfl
  | cons kv rtl ih =>
    intro fuel acc rest _ hfuel
    cases fuel with
    | zero => simp at hfuel
    | succ f =>
      cases rtl with
      | nil =>
        have hp := parseField_encField kv ('\n' :: ' ' :: ' ' :: '\x7d' :: rest)
        simp [encFields, parseFieldsAux, hp, dictFold]
      | cons kv2 rtl2 =>
        simp only [encFields, List.cons_append, List.nil_append, List.append_assoc]
        have hp := parseField_encField kv
          (',' :: '\n' :: (encFields (kv2 :: rtl2) ++ ('\n' :: ' ' :: ' ' :: '\x7d' :: rest)))
        simp only [parseFieldsAux, hp, dictFold]
        exact ih f (rowSet acc kv.1 kv.2) rest (by simp) (by simp at hfuel ⊢; omega)

/-- Parsing an encoded record object recovers the record as a Python dict
built in document order. -/
theorem parseRecord_encRecord (r : Record) (fuel : Nat) (rest : List Char)
    (h : r.length ≤ fuel) :
    parseRecord fuel (encRecord r ++ rest) = some (dictFold [] r, rest) := by
  cases r with
  | nil => simp [encRecord, parseRecord, dictFold]
  | cons kv rtl =>
    simp only [encRecord, List.cons_append, List.nil_append, List.append_assoc]
    rw [show ∀ xs : List Char,
      parseRecord fuel (' ' :: ' ' :: '\x7b' :: '\n' :: xs) = parseFieldsAux fuel [] xs
      from fun _ => rfl]
    exact parseFieldsAux_encFields (kv :: rtl) fuel [] rest (by simp) h

/-- Parsing the encoded items of a non-empty collection recovers every
record. -/
theorem parseItemsAux_encItems (rs : List Record) :
    ∀ fuel : Nat, rs ≠ [] → fuelFor rs ≤ fuel →
      parseItemsAux fuel (encItems rs ++ ['\n', ']']) = some (rs.map (dictFold [])) := by
  induction rs with
  | nil => intro _ h _; cases h rfl
  | cons r rtl ih =>
    intro fuel _ hfuel
    cases fuel with
    | zero => simp [fuelFor] at hfuel
    | succ f =>
      cases rtl with
      | nil =>
        have hr := parseRecord_encRecord r f ['\n', ']']
          (by simp [fuelFor] at hfuel; omega)
        simp [encItems, parseItemsAux, hr]
      | cons r2 rtl2 =>
        simp only [encItems, List.cons_append, List.nil_append, List.append_assoc]
        have hr := parseRecord_encRecord r f
          (',' :: '\n' :: (encItems (r2 :: rtl2) ++ ['\n', ']']))
          (by simp [fuelFor] at hfuel; omega)
        have hrec := ih f (by simp) (by simp [fuelFor] at hfuel ⊢; omega)
        simp [parseItemsAux, hr, hrec]

theorem length_le_encFields (r : List (String × String)) :
    r.length ≤ (encFields r).length := by
  induction r with
  | nil => simp [encFields]
  | cons kv rtl ih =>
    cases rtl with
    | nil => simp [encFields, encField]
    | cons kv2 rtl2 =>
      simp only [encFields, List.length_append, List.length_cons] at ih ⊢
      have h1 : 1 ≤ (encField kv).length := by simp [encField]
      omega

theorem length_lt_encRecord (r : Record) : r.length + 1 ≤ (encRecord r).length := by
  cases r with
  | nil => simp [encRecord]
  | cons kv rtl =>
    have := length_le_encFields (kv :: rtl)
    simp only [encRecord, List.length_append, List.length_cons, List.length_nil] at this ⊢
    omega

theorem fuelFor_le_encItems (rs : List Record) : fuelFor rs ≤ (encItems rs).length := by
  induction rs with
  | nil => simp [fuelFor, encItems]
  | cons r rtl ih =>
    cases rtl with
    | nil =>
      have := length_lt_encRecord r
      simp only [fuelFor, encItems]
      omega
    | cons r2 rtl2 =>
      have h1 := length_lt_encRecord r
      simp only [fuelFor, encItems, List.length_append, List.length_cons] at ih ⊢
      omega

/-- Parsing an encoded collection recovers every record. -/
theorem parseRecords_encode (rs : List Record) :
    parseRecords (encode rs) = some (rs.map (dictFold [])) := by
  cases rs with
  | nil => rfl
  | cons r rtl =>
    simp only [encode, List.cons_append]
    rw [show ∀ xs : List Char,
      parseRecords ('[' :: '\n' :: xs) = parseItemsAux (xs.length + 2) xs
      from fun _ => rfl]
    apply parseItemsAux_encItems (r :: rtl) _ (by simp)
    have h1 := fuelFor_le_encItems (r :: rtl)
    simp only [List.length_append]
    omega

/-- Assigning a fresh batch of nodup-keyed pairs into a dict whose keys are
disjoint from them appends the batch unchanged. -/
theorem dictFold_fresh (r : List (String × String)) :
    ∀ acc : Record, (∀ p ∈ r, p.1 ∉ acc.map Prod.fst) → (r.map Prod.fst).Nodup →
      dictFold acc r = acc ++ r := by
  induction r with
  | nil => intro acc _ _; simp [dictFold]
  | cons kv rtl ih =>
    intro acc hfresh hnodup
    simp only [dictFold]
    have hk : rowGet acc kv.1 = none :=
      rowGet_eq_none_of_not_mem _ _ (hfresh kv (by simp))
    rw [rowSet_fresh _ _ _ hk]
    simp only [List.map_cons, List.nodup_cons] at hnodup
    rw [ih (acc ++ [(kv.1, kv.2)]) ?fresh hnodup.2]
    · simp
    case fresh =>
      intro p hp
      simp only [List.map_append, List.mem_append, List.map_cons, List.map_nil,
        List.mem_singleton, not_or]
      constructor
      · exact hfresh p (by simp [hp])
      · intro hpk
        exact hnodup.1 (hpk ▸ List.mem_map_of_mem Prod.fst hp)

/-- A record with no duplicate field names survives dict accumulation
unchanged. -/
theorem dictFold_id (r : Record) (h : (r.map Prod.fst).Nodup) :
    dictFold [] r = r := by
  simpa using dictFold_fresh r [] (by simp) h

/-! ### Merge-loop helpers -/

/-- When no row's displayed tuple equals the target, the merge loop appends
the new record at the end. -/
theorem mergeLoop_nomatch (cols target : List String) (entry : Record) (user : String)
    (full : List Record) (h : ∀ row ∈ full, ¬ rowTuple row cols = target) :
    mergeLoop cols target entry user full = full ++ [entry] := by
  induction full with
  | nil => rfl
  | cons row rest ih =>
    have h1 : ¬ rowTuple row cols = target := h row (by simp)
    have h2 : ∀ r ∈ rest, ¬ rowTuple r cols = target := fun r hr => h r (by simp [hr])
    simp [mergeLoop, h1, ih h2]

/-- At the first matching row the merge loop replaces it when authorized and
keeps it otherwise; every other row, before or after, is untouched. -/
theorem mergeLoop_first (cols target : List String) (entry : Record) (user : String)
    (pre : List Record) (row : Record) (post : List Record)
    (hpre : ∀ r ∈ pre, ¬ rowTuple r cols = target) (hrow : rowTuple row cols = target) :
    mergeLoop cols target entry user (pre ++ row :: post)
      = pre ++ (if authorized user row then entry else row) :: post := by
  induction pre with
  | nil => simp [mergeLoop, hrow]
  | cons r rest ih =>
    have h1 : ¬ rowTuple r cols = target := hpre r (by simp)
    have h2 : ∀ x ∈ rest, ¬ rowTuple x cols = target := fun x hx => hpre x (by simp [hx])
    simp [mergeLoop, h1, ih h2]

/-- Filtering is idempotent for any Boolean predicate. -/
theorem filter_idem {α : Type} (p : α → Bool) (l : List α) :
    (l.filter p).filter p = l.filter p := by
  induction l with
  | nil => rfl
  | cons a rest ih =>
    by_cases h : p a = true
    · simp [List.filter_cons, h, ih]
    · simp [List.filter_cons, h, ih]

/-! ### Claims -/

/-- C1: for every collection and every principal P other than `administrator`,
the access-scope filter `get_filtered_data` returns exactly the records whose
`Tenant` field equals P, in the input's relative order (the spec-side
`specScope`); and for the administrator it returns the collection unchanged.
The principal is nonempty because an empty login exits at startup (src/q.py
lines 17-19). -/
theorem scope_filter_correct (all : List Record) (p : String) (hp : p ≠ "") :
    get_filtered_data all p = specScope all p ∧ get_filtered_data all ADMIN = all := by
  constructor
  · by_cases hA : p = ADMIN
    · simp [get_filtered_data, specScope, hA]
    · simp only [get_filtered_data, specScope, if_neg hA]
      apply List.filter_congr
      intro row _
      cases hr : rowGet row TENANT_FIELD with
      | none =>
        have l1 : ((none : Option String) == some p) = false := rfl
        have l2 : (("" : String) == p) = false := by
          rw [beq_eq_false_iff_ne]
          exact Ne.symm hp
        simp [rowGetD, hr, l1, l2]
      | some t => simp [rowGetD, hr]
  · simp [get_filtered_data]

/-- Witness for C1 at the spec's own scenario store. -/
theorem scope_filter_correct_witness :
    get_filtered_data [[("Item", "bolt"), ("Tenant", "acme"), ("Project", "P1")]] "acme"
        = specScope [[("Item", "bolt"), ("Tenant", "acme"), ("Project", "P1")]] "acme"
      ∧ get_filtered_data [[("Item", "bolt"), ("Tenant", "acme"), ("Project", "P1")]] ADMIN
        = [[("Item", "bolt"), ("Tenant", "acme"), ("Project", "P1")]] :=
  scope_filter_correct [[("Item", "bolt"), ("Tenant", "acme"), ("Project", "P1")]] "acme"
    (by decide)

/-- C2: `entry_window.save`'s merge (the store's append_or_replace): with a
target tuple, the first row whose displayed tuple equals the target is
replaced in place exactly when the principal is authorized, and all other
rows — identical duplicates included — stay untouched; an unauthorized first
match leaves the collection entirely unchanged (and no error is raised, the
function being total); when no row matches, the new record is appended as a
new last row. -/
theorem merge_first_match_semantics (cols target : List String) (entry : Record)
    (user : String) :
    (∀ full : List Record, (∀ row ∈ full, ¬ rowTuple row cols = target) →
        mergeEntry full cols (some target) entry user = full ++ [entry])
    ∧ (∀ (pre : List Record) (row : Record) (post : List Record),
        (∀ r ∈ pre, ¬ rowTuple r cols = target) → rowTuple row cols = target →
        (authorized user row = true →
          mergeEntry (pre ++ row :: post) cols (some target) entry user
            = pre ++ entry :: post)
        ∧ (authorized user row = false →
          mergeEntry (pre ++ row :: post) cols (some target) entry user
            = pre ++ row :: post)) := by
  refine ⟨?_, ?_⟩
  · intro full h
    simpa [mergeEntry] using mergeLoop_nomatch cols target entry user full h
  · intro pre row post hpre hrow
    constructor
    · intro hauth
      have h := mergeLoop_first cols target entry user pre row post hpre hrow
      simpa [mergeEntry, hauth] using h
    · intro hauth
      have h := mergeLoop_first cols target entry user pre row post hpre hrow
      simpa [mergeEntry, hauth] using h

/-- Witness for C2 at the spec's duplicate-rows scenario: of two
field-for-field identical rows, exactly the first is replaced and the second
remains untouched. -/
theorem merge_first_match_semantics_witness :
    mergeEntry
        [[("Item", "bolt"), ("Tenant", "acme")], [("Item", "bolt"), ("Tenant", "acme")]]
        ["Item", "Tenant"] (some ["bolt", "acme"])
        [("Item", "nut"), ("Tenant", "acme")] "acme"
      = [[("Item", "nut"), ("Tenant", "acme")], [("Item", "bolt"), ("Tenant", "acme")]] := by
  have h := ((merge_first_match_semantics ["Item", "Tenant"] ["bolt", "acme"]
      [("Item", "nut"), ("Tenant", "acme")] "acme").2
      [] [("Item", "bolt"), ("Tenant", "acme")] [[("Item", "bolt"), ("Tenant", "acme")]]
      (by simp) (by decide)).1 (by decide)
  simpa using h

/-- C3: `delete_entry` removes exactly the rows whose displayed tuple is among
the selected tuples and for which the principal is authorized; every
unauthorized match and every non-matching row is retained unchanged in the
original relative order (the result is the `specRetains` filter, a sublist of
the input), and no exception is raised (the operation is total). -/
theorem delete_exactly_authorized_matches (cols : List String)
    (vals : List (List String)) (user : String) (full : List Record) :
    deleteLoop cols vals user full = full.filter (specRetains cols vals user)
    ∧ (deleteLoop cols vals user full).Sublist full
    ∧ ∀ row : Record, row ∈ deleteLoop cols vals user full ↔
        row ∈ full ∧ specRetains cols vals user row = true := by
  have heq : deleteLoop cols vals user full = full.filter (specRetains cols vals user) := by
    induction full with
    | nil => rfl
    | cons row rest ih =>
      by_cases h1 : rowTuple row cols ∈ vals
      · by_cases h2 : authorized user row = true
        · simp [deleteLoop, List.filter_cons, specRetains, ih, h1, h2]
        · have h2' : authorized user row = false := by
            cases hb : authorized user row
            · rfl
            · exact absurd hb h2
          simp [deleteLoop, List.filter_cons, specRetains, ih, h1, h2']
      · simp [deleteLoop, List.filter_cons, specRetains, ih, h1]
  refine ⟨heq, ?_, ?_⟩
  · rw [heq]
    exact List.filter_sublist _
  · intro row
    rw [heq]
    simp [List.mem_filter]

/-- C9: the display filter of `refresh_table` is idempotent: filtering an
already-filtered collection with the same free-text query, tenant filter and
project filter returns it unchanged. -/
theorem display_filter_idempotent (full : List Record)
    (user search tenantF projectF : String) :
    refreshFiltered (refreshFiltered full user search tenantF projectF)
        user search tenantF projectF
      = refreshFiltered full user search tenantF projectF := by
  simp only [refreshFiltered]
  exact filter_idem _ _

/-- C4 counterexample: with the administrator principal and the non-empty
tenant filter `"acme"`, a record whose `Tenant` is the literal string
`"administrator"` passes `tenant_match` although its `Tenant` does not
case-insensitively equal the filter — refuting the claim's "if and only
if" for the administrator with a non-empty filter. -/
theorem admin_tenant_filter_cex :
    tenant_match ADMIN "acme" [("Tenant", "administrator")] = true
    ∧ ¬ toLowerStr (rowGetD [("Tenant", "administrator")] TENANT_FIELD "") = "acme" := by
  decide

/-- C4 amended: the administrator passes a record iff the tenant filter is
empty, or the record's `Tenant` case-insensitively equals the filter, or the
record's `Tenant` equals the literal principal string `"administrator"` (the
stray second disjunct of src/q.py line 178); a non-administrator principal
passes a record iff its `Tenant` equals the principal, independent of the
filter value. -/
theorem tenant_visibility_amended (row : Record) (tq user : String) :
    (tenant_match ADMIN tq row = true ↔
      (tq = "" ∨ toLowerStr (rowGetD row TENANT_FIELD "") = tq
        ∨ rowGet row TENANT_FIELD = some ADMIN))
    ∧ (user ≠ ADMIN →
        (tenant_match user tq row = true ↔ rowGet row TENANT_FIELD = some user)) := by
  constructor
  · simp [tenant_match, or_assoc]
  · intro h
    have hb : (user == ADMIN) = false := by
      rw [beq_eq_false_iff_ne]
      exact h
    simp [tenant_match, hb]

/-- Witness for the amended C4: a non-administrator tenant sees its own row
whatever the tenant-filter box holds. -/
theorem tenant_visibility_amended_witness :
    tenant_match "acme" "zeta" [("Tenant", "acme")] = true :=
  ((tenant_visibility_amended [("Tenant", "acme")] "zeta" "acme").2 (by decide)).mpr
    (by decide)

/-- C5: an edit-session commit by a non-administrator principal forces the
committed record's `Tenant` to the principal regardless of the entered value;
every commit stamps `Last Updated` with the fresh `datetime.now()` render;
hence whenever the clock has not run backwards past the replaced record's
stamp (`strLe` hypothesis), the committed stamp is later than or equal to the
one it replaces. -/
theorem commit_stamps_tenant_and_time (entered : Record) (user now : String) :
    rowGet (commitEntry entered user now) LAST_UPDATED_FIELD = some now
    ∧ (user ≠ ADMIN → rowGet (commitEntry entered user now) TENANT_FIELD = some user)
    ∧ (∀ replaced : Record,
        strLe (rowGetD replaced LAST_UPDATED_FIELD "") now = true →
        strLe (rowGetD replaced LAST_UPDATED_FIELD "")
          (rowGetD (commitEntry entered user now) LAST_UPDATED_FIELD "") = true) := by
  have hLU : rowGet (commitEntry entered user now) LAST_UPDATED_FIELD = some now := by
    by_cases h : user ≠ ADMIN
    · simp only [commitEntry, if_pos h]
      rw [rowGet_rowSet_ne _ _ _ _ (by decide), rowGet_rowSet_self]
    · simp only [commitEntry, if_neg h]
      exact rowGet_rowSet_self _ _ _
  refine ⟨hLU, ?_, ?_⟩
  · intro h
    simp only [commitEntry, if_pos h]
    exact rowGet_rowSet_self _ _ _
  · intro replaced hle
    simp only [rowGetD, hLU, Option.getD_some]
    simpa [rowGetD] using hle

/-- Witness for C5: a non-administrator commit with a spoofed `Tenant` entry
is forced back to the principal, and its fresh stamp dominates the replaced
one. -/
theorem commit_stamps_tenant_and_time_witness :
    rowGet (commitEntry [("Item", "bolt"), ("Tenant", "evil"), ("Last Updated", "x")]
        "acme" "2024-06-01 12:00:00") TENANT_FIELD = some "acme"
    ∧ strLe "2020-01-01 00:00:00"
        (rowGetD (commitEntry [("Item", "bolt"), ("Tenant", "evil"), ("Last Updated", "x")]
          "acme" "2024-06-01 12:00:00") LAST_UPDATED_FIELD "") = true := by
  have h := commit_stamps_tenant_and_time
    [("Item", "bolt"), ("Tenant", "evil"), ("Last Updated", "x")] "acme"
    "2024-06-01 12:00:00"
  refine ⟨h.2.1 (by decide), ?_⟩
  have h2 := h.2.2 [("Last Updated", "2020-01-01 00:00:00")] (by decide)
  have e : rowGetD [("Last Updated", "2020-01-01 00:00:00")] LAST_UPDATED_FIELD ""
      = "2020-01-01 00:00:00" := by decide
  rw [e] at h2
  exact h2

/-- C6 counterexample: a spreadsheet row that already carries a
`Last Updated` value does not keep it — `initialize_from_excel` overwrites it
with the fresh import timestamp, refuting "injected only if absent" for
`Last Updated`. -/
theorem import_overwrites_last_updated_cex :
    rowGet (initRow ADMIN "2024-06-01 12:00:00"
        [("Last Updated", "2020-01-01 00:00:00"), ("Tenant", "acme")]) LAST_UPDATED_FIELD
      = some "2024-06-01 12:00:00"
    ∧ ¬ rowGet (initRow ADMIN "2024-06-01 12:00:00"
        [("Last Updated", "2020-01-01 00:00:00"), ("Tenant", "acme")]) LAST_UPDATED_FIELD
      = some "2020-01-01 00:00:00" := by
  decide

/-- C6 amended: every imported row becomes a record (the import maps rows
one-to-one); `Tenant` is injected only if absent — an existing value is kept
and a missing one receives the default (the principal for a
non-administrator, `""` for the administrator) — but `Last Updated` is
unconditionally overwritten with the fresh import timestamp, even when the
row already carried one. -/
theorem import_stamping_amended (user now : String) (data : List Record) :
    (initRows user now data).length = data.length
    ∧ ∀ row : Record,
        rowGet (initRow user now row) LAST_UPDATED_FIELD = some now
        ∧ (∀ t : String, rowGet row TENANT_FIELD = some t →
            rowGet (initRow user now row) TENANT_FIELD = some t)
        ∧ (rowGet row TENANT_FIELD = none →
            rowGet (initRow user now row) TENANT_FIELD
              = some (if user ≠ ADMIN then user else "")) := by
  refine ⟨by simp [initRows], ?_⟩
  intro row
  have hTF : rowGet (rowSet row LAST_UPDATED_FIELD now) TENANT_FIELD
      = rowGet row TENANT_FIELD :=
    rowGet_rowSet_ne _ _ _ _ (by decide)
  refine ⟨?_, ?_, ?_⟩
  · simp only [initRow]
    rw [rowGet_rowSet_ne _ _ _ _ (by decide), rowGet_rowSet_self]
  · intro t ht
    simp only [initRow]
    rw [rowGet_rowSet_self]
    simp [rowGetD, hTF, ht]
  · intro ht
    simp only [initRow]
    rw [rowGet_rowSet_self]
    simp [rowGetD, hTF, ht]

/-- Witness for the amended C6: a row missing `Tenant` gets the
non-administrator default; a row carrying `Tenant` keeps it. -/
theorem import_stamping_amended_witness :
    rowGet (initRow "acme" "2024-06-01 12:00:00" [("Item", "bolt")]) TENANT_FIELD
        = some "acme"
    ∧ rowGet (initRow "administrator" "2024-06-01 12:00:00" [("Tenant", "zeta")])
        TENANT_FIELD = some "zeta" := by
  constructor
  · have h := ((import_stamping_amended "acme" "2024-06-01 12:00:00" []).2
      [("Item", "bolt")]).2.2 (by decide)
    have e : (if ("acme" : String) ≠ ADMIN then "acme" else "") = "acme" := by decide
    rw [e] at h
    exact h
  · exact ((import_stamping_amended "administrator" "2024-06-01 12:00:00" []).2
      [("Tenant", "zeta")]).2.1 "zeta" (by decide)

/-- C7: persistence round-trip — saving any collection of records (string
field-value mappings with no duplicate field names within a record, i.e.
genuine mappings) and loading the persisted file back reproduces the
collection exactly, field for field, in the same order; no concurrent writer
is modelled. -/
theorem save_load_roundtrip (rs : List Record)
    (h : ∀ r ∈ rs, (r.map Prod.fst).Nodup) :
    load_data (some (save_data rs)) = some rs := by
  simp only [load_data, save_data]
  rw [parseRecords_encode]
  congr 1
  conv_rhs => rw [← List.map_id rs]
  exact List.map_congr_left fun r hr => dictFold_id r (h r hr)

/-- Witness for C7. -/
theorem save_load_roundtrip_witness :
    load_data (some (save_data [[("Item", "bolt"), ("Tenant", "acme")], []]))
      = some [[("Item", "bolt"), ("Tenant", "acme")], []] :=
  save_load_roundtrip [[("Item", "bolt"), ("Tenant", "acme")], []] (by decide)

/-- C8: exporting an empty subset shows an informational notice (not an
error) and attempts no file write; a format tag outside
`{json, html, txt, xlsx}` (after lower-casing) produces a user-visible error
message and no write is attempted; in particular the tag `"csv"` is rejected
with an error and no file. -/
theorem export_rejects_unknown_formats (data : List Record) (t : String)
    (et fp : Option String) (encOk : Bool) (err : String) :
    export_data [] et fp encOk err
      = ⟨[(MsgKind.info, "No data to export.")], false, none⟩
    ∧ (data ≠ [] → t ≠ "" →
        toLowerStr t ∉ (["json", "html", "txt", "xlsx"] : List String) →
        export_data data (some t) fp encOk err
          = ⟨[(MsgKind.error, "Unsupported format: " ++ toLowerStr t)], false, none⟩)
    ∧ (data ≠ [] →
        export_data data (some "csv") fp encOk err
          = ⟨[(MsgKind.error, "Unsupported format: csv")], false, none⟩) := by
  have hmain : ∀ s : String, data ≠ [] → s ≠ "" →
      toLowerStr s ∉ (["json", "html", "txt", "xlsx"] : List String) →
      export_data data (some s) fp encOk err
        = ⟨[(MsgKind.error, "Unsupported format: " ++ toLowerStr s)], false, none⟩ := by
    intro s hd hs hext
    simp [export_data, hd, hs, hext]
  refine ⟨by simp [export_data], fun hd ht hext => hmain t hd ht hext, fun hd => ?_⟩
  have h := hmain "csv" hd (by decide) (by decide)
  have e : "Unsupported format: " ++ toLowerStr "csv" = "Unsupported format: csv" := by
    decide
  rw [e] at h
  exact h

/-- Witness for C8 at the spec's `"csv"` scenario. -/
theorem export_rejects_unknown_formats_witness :
    export_data [[("Item", "bolt")]] (some "csv") (some "out.csv") true "boom"
      = ⟨[(MsgKind.error, "Unsupported format: csv")], false, none⟩ :=
  (export_rejects_unknown_formats [[("Item", "bolt")]] "csv" none (some "out.csv")
    true "boom").2.2 (by decide)

/-- C10: when an Editing commit's first content-matching row belongs to
another tenant and the principal is not the administrator, the in-memory
collection is left element-for-element unchanged — yet the store's save still
runs: the persisted file is rewritten with the serialization of that
unchanged collection and a snapshot tagged with the acting principal is
attempted. -/
theorem unauthorized_edit_still_saves (pre : List Record) (row : Record)
    (post : List Record) (cols target : List String) (entered : Record)
    (user now : String) (st : StoreState)
    (hpre : ∀ r ∈ pre, ¬ rowTuple r cols = target)
    (hrow : rowTuple row cols = target)
    (hadmin : user ≠ ADMIN)
    (hten : ¬ rowGet row TENANT_FIELD = some user) :
    commitSave (pre ++ row :: post) cols (some target) entered user now st
      = (pre ++ row :: post,
         ⟨some (save_data (pre ++ row :: post)),
          st.snapshotMsgs ++ ["Data updated by " ++ user]⟩) := by
  have h1 : (user == ADMIN) = false := by
    rw [beq_eq_false_iff_ne]
    exact hadmin
  have h2 : (rowGet row TENANT_FIELD == some user) = false := by
    rw [beq_eq_false_iff_ne]
    exact hten
  have hauth : authorized user row = false := by
    simp [authorized, h1, h2]
  have hm := mergeLoop_first cols target (commitEntry entered user now) user
    pre row post hpre hrow
  simp [commitSave, mergeEntry, hm, hauth, save_data_effect]

/-- Witness for C10. -/
theorem unauthorized_edit_still_saves_witness :
    commitSave [[("Item", "bolt"), ("Tenant", "zeta")]] ["Item", "Tenant"]
        (some ["bolt", "zeta"]) [("Item", "bolt"), ("Tenant", "zeta")] "acme"
        "2024-06-01 12:00:00" ⟨none, []⟩
      = ([[("Item", "bolt"), ("Tenant", "zeta")]],
         ⟨some (save_data [[("Item", "bolt"), ("Tenant", "zeta")]]),
          ["Data updated by acme"]⟩) := by
  have h := unauthorized_edit_still_saves [] [("Item", "bolt"), ("Tenant", "zeta")] []
    ["Item", "Tenant"] ["bolt", "zeta"] [("Item", "bolt"), ("Tenant", "zeta")]
    "acme" "2024-06-01 12:00:00" ⟨none, []⟩ (by simp) (by decide) (by decide) (by decide)
  have e : "Data updated by " ++ "acme" = "Data updated by acme" := by decide
  simpa [e] using h

end Inventory
